import Mathlib

/-
Shallow embedding of the ant colony optimization (ACO) core of this
repository, from the files Laba3/task 3_2.py and Laba3/task 3_3.py.

Modelling conventions:
  * Python floats are modelled as exact rationals; float("inf") is the top
    element of WithTop.
  * Python dictionaries keyed by ordered index pairs are modelled as
    functions Nat x Nat -> Option, where none means the key is absent.
  * A raised exception (ZeroDivisionError, ValueError from randint or min,
    an uncaught KeyError) is modelled as Except.error.
  * The random source (random.randint, random.choice, random.choices) is
    modelled by an injected tape of natural numbers: each draw takes the
    next tape value modulo the number of candidates, so every element of
    the candidate list is reachable.  This over-approximates the support
    of the weighted draw, which is sound for the universally quantified
    properties proved below.
  * The float exponents alpha and beta (source defaults 1.0 and 2.0) are
    modelled as natural-number exponents.
-/

deriving instance DecidableEq for Except

namespace AntColony

/-- Pheromone map built by initialize_pheromones in task 3_2 (lines 103-110)
and by the inline loops of task 3_3 (lines 153-157): every ordered pair
(i, j) with i, j < n and i distinct from j carries the constant 0.1. -/
def init_pheromones (n : Nat) : Nat × Nat → Option ℚ :=
  fun e => if e.1 < n ∧ e.2 < n ∧ e.1 ≠ e.2 then some (1 / 10) else none

/-- calculate_transition_prob of task 3_2 (lines 113-122).  The try block
catches only KeyError, so a missing key in either table yields 0.0, while a
zero distance makes the expression 1.0 / distances[(current, next_node)]
raise ZeroDivisionError, modelled as Except.error. -/
def calculate_transition_prob (pheromone distances : Nat × Nat → Option ℚ)
    (current next_node : Nat) (alpha beta : Nat) : Except Unit ℚ :=
  if current = next_node then .ok 0
  else
    match pheromone (current, next_node) with
    | none => .ok 0
    | some tau =>
      match distances (current, next_node) with
      | none => .ok 0
      | some dist =>
        if dist = 0 then .error () else .ok (tau ^ alpha * (1 / dist) ^ beta)

/-- Inline transition weight of task 3_3 (lines 182-188).  It differs from
task 3_2: tau is read with pheromone.get((current, node), 0.1), so a missing
pheromone key contributes with default trail 0.1, and the distance lookup
distances[(current, node)] is not guarded, so a missing distance key raises
KeyError (modelled as Except.error), as does a zero distance. -/
def transition_weight_simple (pheromone distances : Nat × Nat → Option ℚ)
    (alpha beta : Nat) (current node : Nat) : Except Unit ℚ :=
  if current = node then .ok 0
  else
    let tau := (pheromone (current, node)).getD (1 / 10)
    match distances (current, node) with
    | none => .error ()
    | some dist =>
      if dist = 0 then .error () else .ok (tau ^ alpha * (1 / dist) ^ beta)

/-- Sequencing of fallible computations: the first error aborts, exactly as
the first exception raised inside a Python loop aborts the whole call. -/
def collectE {α : Type} : List (Except Unit α) → Except Unit (List α)
  | [] => .ok []
  | .error e :: _ => .error e
  | .ok a :: rest =>
    match collectE rest with
    | .error e => .error e
    | .ok tl => .ok (a :: tl)

/-- One while-loop of construct_path in task 3_2 (lines 133-153), shared with
the inline ant loop of task 3_3 (lines 174-201); the two differ only in the
weight function w.  The fuel argument bounds the number of passes; callers
pass fuel = n, which is enough because every pass adds one node.  In the
source, visited is always set(path), so the path list carries the whole
state.  Both the uniform fallback (random.choice, taken when the weight sum
is zero) and the weighted draw (random.choices) return one element of
unvisited; the injected tape selects its index. -/
def build_tour_loop (w : Nat → Nat → Except Unit ℚ) (n : Nat)
    (tape : Nat → Nat) : Nat → Nat → Nat → List Nat → Except Unit (List Nat)
  | 0, _, _, path => .ok path
  | fuel + 1, t, current, path =>
    if path.length < n then
      let unvisited := (List.range n).filter (fun i => decide (i ∉ path))
      if unvisited.isEmpty then .ok path
      else
        match collectE (unvisited.map (fun node => w current node)) with
        | .error e => .error e
        | .ok probs =>
          let total := probs.sum
          let idx := tape t % unvisited.length
          let next_node :=
            if total = 0 then unvisited.getD idx 0 else unvisited.getD idx 0
          build_tour_loop w n tape fuel (t + 1) next_node (path ++ [next_node])
    else .ok path

/-- Tour construction shared by construct_path of task 3_2 (lines 125-155)
and the per-ant loop of task 3_3 (lines 166-203), parameterized by the
transition weight function.  random.randint(0, n - 1) raises ValueError for
n = 0 and otherwise returns the tape-selected start node. -/
def build_tour (w : Nat → Nat → Except Unit ℚ) (n : Nat)
    (tape : Nat → Nat) : Except Unit (List Nat) :=
  if n = 0 then .error ()
  else
    let start := tape 0 % n
    build_tour_loop w n tape n 1 start [start]

/-- construct_path of task 3_2 (lines 125-155): the weight function is
calculate_transition_prob with its default exponents alpha = 1.0, beta = 2.0. -/
def construct_path (pheromone distances : Nat × Nat → Option ℚ) (n : Nat)
    (tape : Nat → Nat) : Except Unit (List Nat) :=
  build_tour (fun current node =>
    calculate_transition_prob pheromone distances current node 1 2) n tape

/-- The i-th directed edge of the closed tour: a = path[i],
b = path[(i + 1) % len(path)], as in task 3_2 lines 163-164 and 178-179 and
task 3_3 lines 209-210 and 229-230. -/
def edgeAt (path : List Nat) (i : Nat) : Nat × Nat :=
  (path.getD i 0, path.getD ((i + 1) % path.length) 0)

/-- All directed edges of the closed tour, wrap-around edge included. -/
def tourEdges (path : List Nat) : List (Nat × Nat) :=
  (List.range path.length).map (edgeAt path)

/-- Number of occurrences of a pair in a list of pairs. -/
def countPair (l : List (Nat × Nat)) (e : Nat × Nat) : Nat :=
  l.countP (fun x => decide (x = e))

/-- path_length of task 3_2 (lines 158-166) and the inner
compute_path_length of task 3_3 (lines 206-212): sums
distances.get((a, b), float("inf")) over the edges of the closed tour. -/
def path_length (path : List Nat) (distances : Nat × Nat → Option ℚ) :
    WithTop ℚ :=
  ((List.range path.length).map (fun i =>
    match distances (edgeAt path i) with
    | some v => (v : WithTop ℚ)
    | none => ⊤)).sum

/-- Evaporation sweep of task 3_2 (lines 171-172) and task 3_3
(lines 223-224): every entry is multiplied by (1 - evaporation). -/
def evaporate (pheromone : Nat × Nat → Option ℚ) (evaporation : ℚ) :
    Nat × Nat → Option ℚ :=
  fun e => (pheromone e).map (fun v => v * (1 - evaporation))

/-- One pass of the reinforcement loop body (task 3_2 lines 177-181, task
3_3 lines 228-232): if the i-th edge is a key of the map, add amt to it. -/
def reinforceStep (amt : ℚ) (path : List Nat) (m : Nat × Nat → Option ℚ)
    (i : Nat) : Nat × Nat → Option ℚ :=
  match m (edgeAt path i) with
  | some v => Function.update m (edgeAt path i) (some (v + amt))
  | none => m

/-- The whole reinforcement loop, adding amt on every edge of the closed
tour that is present in the map. -/
def reinforceAmt (pheromone : Nat × Nat → Option ℚ) (path : List Nat)
    (amt : ℚ) : Nat × Nat → Option ℚ :=
  (List.range path.length).foldl (reinforceStep amt path) pheromone

/-- Reinforcement with amount q / length, as in pheromone[(a, b)] += q / length
(task 3_2 line 181, task 3_3 line 232). -/
def reinforce (pheromone : Nat × Nat → Option ℚ) (path : List Nat)
    (q L : ℚ) : Nat × Nat → Option ℚ :=
  reinforceAmt pheromone path (q / L)

/-- The reinforcement amount when the tour length may be infinite:
Python evaluates q / float("inf") to 0.0. -/
def top_div (q : ℚ) (L : WithTop ℚ) : ℚ :=
  if L = ⊤ then 0 else q / L.untop' 0

/-- update_pheromones of task 3_2 (lines 169-183): evaporation, then, when
the tour length is positive, reinforcement along the closed tour. -/
def update_pheromones (pheromone : Nat × Nat → Option ℚ)
    (best_path : List Nat) (distances : Nat × Nat → Option ℚ)
    (evaporation q : ℚ) : Nat × Nat → Option ℚ :=
  let ph1 := evaporate pheromone evaporation
  let length := path_length best_path distances
  if 0 < length then reinforceAmt ph1 best_path (top_div q length) else ph1

/-- A pheromone mutation, as performed once per iteration by the optimizer:
an evaporation sweep or one reinforcement pass. -/
inductive PheromoneOp where
  | evap (rho : ℚ)
  | reinf (path : List Nat) (q L : ℚ)

/-- Application of one pheromone mutation. -/
def applyOp (pheromone : Nat × Nat → Option ℚ) :
    PheromoneOp → (Nat × Nat → Option ℚ)
  | .evap rho => evaporate pheromone rho
  | .reinf path q L => reinforce pheromone path q L

/-- The parameter ranges under which the spec states positivity: rho in
[0, 1) for evaporation, q nonnegative and length positive for
reinforcement (the source guards reinforcement with length > 0 and uses
q = 100.0). -/
def ValidOp : PheromoneOp → Prop
  | .evap rho => 0 ≤ rho ∧ rho < 1
  | .reinf _ q L => 0 ≤ q ∧ 0 < L

/-- Every entry present in the map is strictly positive. -/
def AllPos (pheromone : Nat × Nat → Option ℚ) : Prop :=
  ∀ e v, pheromone e = some v → 0 < v

/-- Python min(list, key = f): the first element of minimal key; the running
best is replaced only when a strictly smaller key is seen; min of an empty
list raises ValueError, modelled as none. -/
def python_min {α : Type} (f : α → WithTop ℚ) : List α → Option α
  | [] => none
  | x :: xs => some (xs.foldl (fun acc y => if f y < f acc then y else acc) x)

/-- Run state of ant_colony_optimization_simple in task 3_3: the pheromone
map, best_path_overall (initially None) and best_length_overall
(initially float("inf")). -/
structure AcoState where
  pheromone : Nat × Nat → Option ℚ
  best_path : Option (List Nat)
  best_len : WithTop ℚ

/-- One iteration of ant_colony_optimization_simple (task 3_3 lines
162-232): build one tour per ant, pick the iteration-best tour with
min(all_paths, key = compute_path_length), update the overall best when the
iteration best is strictly shorter, evaporate, then reinforce the
iteration-best tour when its length is positive. -/
def aco_iteration (d : Nat × Nat → Option ℚ) (n ants alpha beta : Nat)
    (evaporation q : ℚ) (tape : Nat → Nat → Nat) (s : AcoState) :
    Except Unit AcoState :=
  match collectE ((List.range ants).map (fun a =>
      build_tour (fun c x => transition_weight_simple s.pheromone d alpha beta c x)
        n (tape a))) with
  | .error e => .error e
  | .ok all_paths =>
    match python_min (fun p => path_length p d) all_paths with
    | none => .error ()
    | some current_best_path =>
      let current_best_length := path_length current_best_path d
      let bp := if current_best_length < s.best_len then some current_best_path
        else s.best_path
      let bl := if current_best_length < s.best_len then current_best_length
        else s.best_len
      let ph1 := evaporate s.pheromone evaporation
      let ph2 := if 0 < current_best_length
        then reinforceAmt ph1 current_best_path (top_div q current_best_length)
        else ph1
      .ok ⟨ph2, bp, bl⟩

/-- The outer iteration loop of ant_colony_optimization_simple: starts from
the initial pheromone map, best_path_overall = None and
best_length_overall = float("inf"), then applies aco_iteration k times.
The tape gives each (iteration, ant, step) its own random value. -/
def aco_run (d : Nat × Nat → Option ℚ) (n ants alpha beta : Nat)
    (evaporation q : ℚ) (tape : Nat → Nat → Nat → Nat) :
    Nat → Except Unit AcoState
  | 0 => .ok ⟨init_pheromones n, none, ⊤⟩
  | k + 1 =>
    match aco_run d n ants alpha beta evaporation q tape k with
    | .error e => .error e
    | .ok s => aco_iteration d n ants alpha beta evaporation q (tape k) s

/-- best_length_overall after k iterations. -/
def aco_best_after (d : Nat × Nat → Option ℚ) (n ants alpha beta : Nat)
    (evaporation q : ℚ) (tape : Nat → Nat → Nat → Nat) (k : Nat) :
    Except Unit (WithTop ℚ) :=
  Except.map AcoState.best_len (aco_run d n ants alpha beta evaporation q tape k)

/-- build_distance_matrix_cached of task 3_3 (lines 49-70), also the
dictionary built from generate_edges of task 3_2 (lines 84-96, 207): for
every ordered pair of distinct valid indices, the Euclidean distance
sqrt(dx*dx + dy*dy + dz*dz) of the two points; no entry for i = j.  The
square root on floats is modelled by an injected function sqrtFn (the
lru_cache of the source is a performance detail of a pure function). -/
def build_distance_matrix_cached (sqrtFn : ℚ → ℚ)
    (points : List (ℚ × ℚ × ℚ)) : Nat × Nat → Option ℚ :=
  fun e =>
    if e.1 < points.length ∧ e.2 < points.length ∧ e.1 ≠ e.2 then
      let p1 := points.getD e.1 (0, 0, 0)
      let p2 := points.getD e.2 (0, 0, 0)
      some (sqrtFn ((p1.1 - p2.1) * (p1.1 - p2.1)
        + (p1.2.1 - p2.2.1) * (p1.2.1 - p2.2.1)
        + (p1.2.2 - p2.2.2) * (p1.2.2 - p2.2.2)))
    else none

/-- ant_colony_optimization_simple of task 3_3 (lines 136-234): builds the
distance matrix once, runs the configured number of iterations, and returns
(best_path_overall, best_length_overall).  No configuration validation is
performed by the source. -/
def ant_colony_optimization_simple (sqrtFn : ℚ → ℚ)
    (points : List (ℚ × ℚ × ℚ)) (iterations ants alpha beta : Nat)
    (evaporation q : ℚ) (tape : Nat → Nat → Nat → Nat) :
    Except Unit (Option (List Nat) × WithTop ℚ) :=
  let n := points.length
  let d := build_distance_matrix_cached sqrtFn points
  match aco_run d n ants alpha beta evaporation q tape iterations with
  | .error e => .error e
  | .ok s => .ok (s.best_path, s.best_len)

/-- Concrete fixtures used by the witness theorems below. -/
def wDist : Nat × Nat → Option ℚ :=
  fun e => if e = (0, 1) ∨ e = (1, 0) then some 5 else none

/-- A complete positive distance table on 3 nodes. -/
def wDist3 : Nat × Nat → Option ℚ :=
  fun e => if e.1 < 3 ∧ e.2 < 3 ∧ e.1 ≠ e.2 then some 1 else none

/-- A pheromone table with every entry 0.1. -/
def wPher : Nat × Nat → Option ℚ := fun _ => some (1 / 10)

/-- The all-zeros random tape for a single tour construction. -/
def wTape1 : Nat → Nat := fun _ => 0

/-- The all-zeros random tape for one iteration. -/
def wTape2 : Nat → Nat → Nat := fun _ _ => 0

/-- The all-zeros random tape for a whole run. -/
def wTape3 : Nat → Nat → Nat → Nat := fun _ _ _ => 0

/-- The initial optimizer state on 2 nodes. -/
def wState : AcoState := ⟨init_pheromones 2, none, ⊤⟩

/-- Two concrete 3D points at distance 5. -/
def wPoints : List (ℚ × ℚ × ℚ) := [(0, 0, 0), (3, 4, 0)]

/-- Claim C7: the transition weight of calculate_transition_prob is 0 when
current = candidate; it is 0 when the pair is absent from the pheromone
table or from the distance table (the KeyError is caught, nothing is
raised); and when both entries are present with a nonzero distance it is
pheromone(current,candidate)^alpha * (1/distance(current,candidate))^beta. -/
theorem transition_prob_contract (ph d : Nat × Nat → Option ℚ)
    (current cand : Nat) (alpha beta : Nat) :
    (current = cand →
      calculate_transition_prob ph d current cand alpha beta = .ok 0) ∧
    (current ≠ cand → ph (current, cand) = none →
      calculate_transition_prob ph d current cand alpha beta = .ok 0) ∧
    (∀ tau, current ≠ cand → ph (current, cand) = some tau →
      d (current, cand) = none →
      calculate_transition_prob ph d current cand alpha beta = .ok 0) ∧
    (∀ tau dist, current ≠ cand → ph (current, cand) = some tau →
      d (current, cand) = some dist → dist ≠ 0 →
      calculate_transition_prob ph d current cand alpha beta =
        .ok (tau ^ alpha * (1 / dist) ^ beta)) := by
  refine ⟨?_, ?_, ?_, ?_⟩
  · intro h
    simp [calculate_transition_prob, h]
  · intro h hp
    simp [calculate_transition_prob, h, hp]
  · intro tau h hp hd
    simp [calculate_transition_prob, h, hp, hd]
  · intro tau dist h hp hd hz
    simp [calculate_transition_prob, h, hp, hd, hz]

/-- Witness for C7: a concrete evaluation through the formula case. -/
theorem transition_prob_contract_witness :
    calculate_transition_prob wPher wDist 0 1 1 2 =
      .ok ((1 / 10 : ℚ) ^ 1 * (1 / 5) ^ 2) :=
  (transition_prob_contract wPher wDist 0 1 1 2).2.2.2 (1 / 10) 5
    (by decide) rfl rfl (by norm_num)

unseal Rat.add Rat.sub Rat.mul Rat.inv in
/-- Claim C8 (code bug): with two distinct indices at coincident
coordinates the distance is 0, and the transition weight computation
raises ZeroDivisionError (only KeyError is caught), so tour construction
aborts instead of completing through the degenerate fallback path.  The
first equation evaluates calculate_transition_prob at a zero-distance
pair; the second runs construct_path on the distance table of the point
list [(0,0,0), (0,0,0)] and shows the whole construction errors. -/
theorem zero_distance_transition_raises :
    calculate_transition_prob wPher (fun _ => some 0) 0 1 1 2 = .error () ∧
    construct_path wPher
      (build_distance_matrix_cached (fun x => x) [(0, 0, 0), (0, 0, 0)]) 2
      wTape1 = .error () := by
  constructor
  · rfl
  · decide

/-- Claim C9: the distance table built from any sequence of at least two
points is symmetric (distance(i,j) = distance(j,i), because the squared
differences are literally equal rationals, whatever the injected square
root function does), defined for every ordered pair of distinct valid
indices, and absent for i = j. -/
theorem distance_matrix_symm (sqrtFn : ℚ → ℚ) (points : List (ℚ × ℚ × ℚ))
    (_hn : 2 ≤ points.length) :
    (∀ i j, i ≠ j → i < points.length → j < points.length →
      build_distance_matrix_cached sqrtFn points (i, j) =
        build_distance_matrix_cached sqrtFn points (j, i) ∧
      (build_distance_matrix_cached sqrtFn points (i, j)).isSome = true) ∧
    (∀ i, build_distance_matrix_cached sqrtFn points (i, i) = none) := by
  constructor
  · intro i j hij hi hj
    constructor
    · simp only [build_distance_matrix_cached, hi, hj, hij, Ne.symm hij,
        and_true, true_and, if_true, ne_eq, not_false_eq_true]
      congr 1
      ring_nf
    · simp [build_distance_matrix_cached, hi, hj, hij]
  · intro i
    simp [build_distance_matrix_cached]

/-- Witness for C9: the concrete two-point fixture. -/
theorem distance_matrix_symm_witness :
    build_distance_matrix_cached (fun x => x) wPoints (0, 1) =
      build_distance_matrix_cached (fun x => x) wPoints (1, 0) ∧
    (build_distance_matrix_cached (fun x => x) wPoints (0, 1)).isSome = true :=
  (distance_matrix_symm (fun x => x) wPoints (by decide)).1 0 1
    (by decide) (by decide) (by decide)

theorem countPair_cons (a : Nat × Nat) (l : List (Nat × Nat)) (e : Nat × Nat) :
    countPair (a :: l) e = countPair l e + if a = e then 1 else 0 := by
  simp [countPair, List.countP_cons]

theorem countPair_eq_zero {l : List (Nat × Nat)} {e : Nat × Nat}
    (h : e ∉ l) : countPair l e = 0 := by
  simp only [countPair]
  refine List.countP_eq_zero.mpr ?_
  intro a ha
  simp only [decide_eq_true_eq]
  intro hae
  exact h (hae ▸ ha)

theorem countPair_eq_one {l : List (Nat × Nat)} {e : Nat × Nat}
    (hnd : l.Nodup) (h : e ∈ l) : countPair l e = 1 := by
  induction l with
  | nil => cases h
  | cons a t ih =>
    rcases List.mem_cons.mp h with rfl | ht
    · rw [countPair_cons, countPair_eq_zero (List.nodup_cons.mp hnd).1, if_pos rfl]
    · have hae : a ≠ e := by
        intro hae
        exact (List.nodup_cons.mp hnd).1 (hae ▸ ht)
      rw [countPair_cons, ih (List.nodup_cons.mp hnd).2 ht, if_neg hae]

theorem reinforceStep_at (amt : ℚ) (path : List Nat)
    (m : Nat × Nat → Option ℚ) (i : Nat) (e : Nat × Nat) :
    reinforceStep amt path m i e =
      if edgeAt path i = e then
        match m e with
        | some v => some (v + amt)
        | none => none
      else m e := by
  by_cases hei : edgeAt path i = e
  · subst hei
    unfold reinforceStep
    cases hm : m (edgeAt path i) with
    | none => simp [hm]
    | some v => simp [hm, Function.update_same]
  · unfold reinforceStep
    cases hm : m (edgeAt path i) with
    | none => simp [hei]
    | some v => simp [hei, Function.update_noteq (Ne.symm hei)]

theorem reinforce_fold_apply (path : List Nat) (amt : ℚ) :
    ∀ (idxs : List Nat) (m : Nat × Nat → Option ℚ) (e : Nat × Nat),
      (idxs.foldl (reinforceStep amt path) m) e =
        (m e).map (fun v =>
          v + (countPair (idxs.map (edgeAt path)) e : ℚ) * amt) := by
  intro idxs
  induction idxs with
  | nil =>
    intro m e
    cases hm : m e <;> simp [countPair, hm]
  | cons i is ih =>
    intro m e
    rw [List.foldl_cons, ih]
    rw [List.map_cons, countPair_cons, reinforceStep_at]
    by_cases hei : edgeAt path i = e
    · rw [if_pos hei, if_pos hei]
      cases hm : m e with
      | none => simp
      | some v =>
        simp only [Option.map_some']
        congr 1
        push_cast
        ring
    · rw [if_neg hei, if_neg hei]
      cases hm : m e <;> simp [hm]

theorem range_map_getD (l : List Nat) :
    (List.range l.length).map (fun i => l.getD i 0) = l := by
  induction l with
  | nil => simp
  | cons a t ih =>
    rw [List.length_cons, List.range_succ_eq_map, List.map_cons, List.map_map]
    simp only [List.getD_cons_zero]
    exact congrArg (a :: ·) ih

theorem tourEdges_map_fst (path : List Nat) :
    (tourEdges path).map Prod.fst = path := by
  unfold tourEdges
  rw [List.map_map]
  have : (Prod.fst ∘ edgeAt path) = fun i => path.getD i 0 := rfl
  rw [this, range_map_getD]

theorem tourEdges_nodup {path : List Nat} (h : path.Nodup) :
    (tourEdges path).Nodup := by
  refine List.Nodup.of_map Prod.fst ?_
  rw [tourEdges_map_fst]
  exact h

theorem reinforceAmt_apply_edge (ph : Nat × Nat → Option ℚ)
    (path : List Nat) (amt : ℚ) (e : Nat × Nat) (v : ℚ) (hnd : path.Nodup)
    (he : e ∈ tourEdges path) (hv : ph e = some v) :
    reinforceAmt ph path amt e = some (v + amt) := by
  unfold reinforceAmt
  rw [reinforce_fold_apply]
  have hc : countPair ((List.range path.length).map (edgeAt path)) e = 1 :=
    countPair_eq_one (tourEdges_nodup hnd) he
  rw [hv, hc]
  simp

theorem reinforceAmt_apply_frame (ph : Nat × Nat → Option ℚ)
    (path : List Nat) (amt : ℚ) (e : Nat × Nat)
    (he : e ∉ tourEdges path) :
    reinforceAmt ph path amt e = ph e := by
  unfold reinforceAmt
  rw [reinforce_fold_apply]
  have hc : countPair ((List.range path.length).map (edgeAt path)) e = 0 :=
    countPair_eq_zero he
  rw [hc]
  cases hm : ph e <;> simp [hm]

/-- Claim C4: after one reinforcement step with tour t, amount q and length
L > 0, every consecutive ordered pair (a,b) of the closed tour (wrap-around
edge included) that is present in the pheromone map gains exactly q / L;
the reverse pair (b,a), when it is not itself an edge of the closed tour,
is untouched, and every ordered pair that is not an edge of the tour is
unchanged by the reinforcement. -/
theorem reinforce_targets_tour_edges (ph : Nat × Nat → Option ℚ)
    (path : List Nat) (q L : ℚ) (hnd : path.Nodup) (_hL : 0 < L) :
    (∀ a b v, (a, b) ∈ tourEdges path → ph (a, b) = some v →
      reinforce ph path q L (a, b) = some (v + q / L)) ∧
    (∀ a b, (a, b) ∈ tourEdges path → (b, a) ∉ tourEdges path →
      reinforce ph path q L (b, a) = ph (b, a)) ∧
    (∀ e, e ∉ tourEdges path → reinforce ph path q L e = ph e) := by
  refine ⟨?_, ?_, ?_⟩
  · intro a b v he hv
    exact reinforceAmt_apply_edge ph path (q / L) (a, b) v hnd he hv
  · intro a b _ hrev
    exact reinforceAmt_apply_frame ph path (q / L) (b, a) hrev
  · intro e he
    exact reinforceAmt_apply_frame ph path (q / L) e he

/-- Witness for C4: the tour [0, 1, 2]; its edge (0, 1) gains 100 / 10 and
the reverse pair (1, 0), which is not an edge, is unchanged. -/
theorem reinforce_targets_tour_edges_witness :
    reinforce wPher [0, 1, 2] 100 10 (0, 1) = some (1 / 10 + 100 / 10) ∧
    reinforce wPher [0, 1, 2] 100 10 (1, 0) = wPher (1, 0) :=
  ⟨(reinforce_targets_tour_edges wPher [0, 1, 2] 100 10 (by decide)
      (by norm_num)).1 0 1 (1 / 10) (by decide) rfl,
   (reinforce_targets_tour_edges wPher [0, 1, 2] 100 10 (by decide)
      (by norm_num)).2.1 0 1 (by decide) (by decide)⟩

theorem init_pheromones_allPos (n : Nat) : AllPos (init_pheromones n) := by
  intro e v h
  unfold init_pheromones at h
  split at h
  · cases h
    norm_num
  · cases h

theorem evaporate_allPos {ph : Nat × Nat → Option ℚ} {rho : ℚ}
    (hph : AllPos ph) (_h0 : 0 ≤ rho) (h1 : rho < 1) :
    AllPos (evaporate ph rho) := by
  intro e v h
  unfold evaporate at h
  rcases Option.map_eq_some'.mp h with ⟨w, hw, rfl⟩
  have hwpos := hph e w hw
  have : (0 : ℚ) < 1 - rho := by linarith
  exact mul_pos hwpos this

theorem reinforceAmt_allPos {ph : Nat × Nat → Option ℚ} {path : List Nat}
    {amt : ℚ} (hph : AllPos ph) (hamt : 0 ≤ amt) :
    AllPos (reinforceAmt ph path amt) := by
  intro e v h
  unfold reinforceAmt at h
  rw [reinforce_fold_apply] at h
  rcases Option.map_eq_some'.mp h with ⟨w, hw, rfl⟩
  have hwpos := hph e w hw
  have hc : (0 : ℚ) ≤
      (countPair ((List.range path.length).map (edgeAt path)) e : ℚ) * amt :=
    mul_nonneg (Nat.cast_nonneg _) hamt
  linarith

theorem foldl_applyOp_allPos (ops : List PheromoneOp) :
    ∀ ph : Nat × Nat → Option ℚ, AllPos ph → (∀ op ∈ ops, ValidOp op) →
      AllPos (ops.foldl applyOp ph) := by
  induction ops with
  | nil =>
    intro ph hph _
    simpa using hph
  | cons op ops ih =>
    intro ph hph hops
    rw [List.foldl_cons]
    refine ih (applyOp ph op) ?_ (fun o ho => hops o (List.mem_cons_of_mem op ho))
    have hop : ValidOp op := hops op (List.mem_cons_self op ops)
    cases op with
    | evap rho => exact evaporate_allPos hph hop.1 hop.2
    | reinf path q L =>
      exact reinforceAmt_allPos hph (div_nonneg hop.1 (le_of_lt hop.2))

/-- Claim C5: the pheromone map is initialized to the constant 0.1 on every
ordered pair of distinct valid indices, and it stays strictly positive in
exact arithmetic after any finite sequence of evaporation sweeps with rho
in [0, 1) and reinforcement passes with nonnegative amount q / L, L > 0:
evaporation multiplies entries by (1 - rho), never removing them or driving
them to zero, and reinforcement only adds a nonnegative amount. -/
theorem pheromone_stays_positive (n : Nat) (ops : List PheromoneOp)
    (hops : ∀ op ∈ ops, ValidOp op) :
    (∀ i j, i < n → j < n → i ≠ j →
      init_pheromones n (i, j) = some (1 / 10)) ∧
    AllPos (ops.foldl applyOp (init_pheromones n)) := by
  constructor
  · intro i j hi hj hij
    simp [init_pheromones, hi, hj, hij]
  · exact foldl_applyOp_allPos ops (init_pheromones n)
      (init_pheromones_allPos n) hops

unseal Rat.add Rat.sub Rat.mul Rat.inv in
/-- Witness for C5: on 2 nodes, one evaporation with rho = 1/2 followed by
one reinforcement of the tour [0, 1] with q = 100 and L = 10 leaves the
entry (0, 1) at a concrete strictly positive value. -/
theorem pheromone_stays_positive_witness :
    ([PheromoneOp.evap (1 / 2), PheromoneOp.reinf [0, 1] 100 10].foldl
      applyOp (init_pheromones 2)) (0, 1) =
        some (1 / 10 * (1 - 1 / 2) + 100 / 10) ∧
    (0 : ℚ) < 1 / 10 * (1 - 1 / 2) + 100 / 10 := by
  constructor
  · decide
  · refine (pheromone_stays_positive 2
      [PheromoneOp.evap (1 / 2), PheromoneOp.reinf [0, 1] 100 10] ?_).2
      (0, 1) (1 / 10 * (1 - 1 / 2) + 100 / 10) (by decide)
    intro op hop
    rcases List.mem_cons.mp hop with rfl | hop2
    · exact ⟨by norm_num, by norm_num⟩
    · rcases List.mem_cons.mp hop2 with rfl | hop3
      · exact ⟨by norm_num, by norm_num⟩
      · cases hop3

theorem collectE_ok {α : Type} (l : List (Except Unit α))
    (h : ∀ x ∈ l, ∃ a, x = .ok a) : ∃ tl, collectE l = .ok tl := by
  induction l with
  | nil => exact ⟨[], rfl⟩
  | cons x xs ih =>
    obtain ⟨tl, htl⟩ := ih (fun y hy => h y (List.mem_cons_of_mem x hy))
    rcases h x (List.mem_cons_self x xs) with ⟨a, rfl⟩
    exact ⟨a :: tl, by simp [collectE, htl]⟩

theorem nodup_bounded_length_le {n : Nat} {path : List Nat}
    (hnd : path.Nodup) (hb : ∀ x ∈ path, x < n) : path.length ≤ n := by
  have hsub : path ⊆ List.range n := fun x hx => List.mem_range.mpr (hb x hx)
  have := (hnd.subperm hsub).length_le
  simpa using this

theorem unvisited_nonempty {n : Nat} {path : List Nat} (_hnd : path.Nodup)
    (_hb : ∀ x ∈ path, x < n) (hlt : path.length < n) :
    (List.range n).filter (fun i => decide (i ∉ path)) ≠ [] := by
  intro hempty
  have hsub : List.range n ⊆ path := by
    intro i hi
    by_contra hnot
    have hmem : i ∈ (List.range n).filter (fun i => decide (i ∉ path)) :=
      List.mem_filter.mpr ⟨hi, by simpa using hnot⟩
    rw [hempty] at hmem
    cases hmem
  have hlen := ((List.nodup_range n).subperm hsub).length_le
  simp only [List.length_range] at hlen
  omega

theorem perm_range_of {n : Nat} {p : List Nat} (hnd : p.Nodup)
    (hb : ∀ x ∈ p, x < n) (hlen : p.length = n) : p.Perm (List.range n) := by
  have hsub : p ⊆ List.range n := fun x hx => List.mem_range.mpr (hb x hx)
  exact (hnd.subperm hsub).perm_of_length_le (by simp [hlen])

theorem build_tour_loop_spec (w : Nat → Nat → Except Unit ℚ) (n : Nat)
    (tape : Nat → Nat) :
    ∀ (fuel t current : Nat) (path : List Nat),
      path.Nodup → (∀ x ∈ path, x < n) →
      ∀ p, build_tour_loop w n tape fuel t current path = .ok p →
        p.Nodup ∧ (∀ x ∈ p, x < n) ∧ (n ≤ fuel + path.length → p.length = n) := by
  intro fuel
  induction fuel with
  | zero =>
    intro t current path hnd hb p hp
    simp only [build_tour_loop, Except.ok.injEq] at hp
    subst hp
    refine ⟨hnd, hb, fun hle => ?_⟩
    have := nodup_bounded_length_le hnd hb
    omega
  | succ fuel ih =>
    intro t current path hnd hb p hp
    simp only [build_tour_loop] at hp
    by_cases hlt : path.length < n
    · rw [if_pos hlt] at hp
      by_cases hemp :
          ((List.range n).filter (fun i => decide (i ∉ path))).isEmpty = true
      · exact absurd (List.isEmpty_iff.mp hemp) (unvisited_nonempty hnd hb hlt)
      · rw [if_neg hemp] at hp
        cases hcol : collectE (((List.range n).filter
            (fun i => decide (i ∉ path))).map (fun node => w current node)) with
        | error e =>
          rw [hcol] at hp
          simp at hp
        | ok probs =>
          rw [hcol] at hp
          simp only [ite_self] at hp
          have hupos : 0 <
              ((List.range n).filter (fun i => decide (i ∉ path))).length :=
            List.length_pos.mpr (unvisited_nonempty hnd hb hlt)
          have hidx : tape t %
              ((List.range n).filter (fun i => decide (i ∉ path))).length <
              ((List.range n).filter (fun i => decide (i ∉ path))).length :=
            Nat.mod_lt _ hupos
          have hmem : ((List.range n).filter (fun i => decide (i ∉ path))).getD
              (tape t % ((List.range n).filter
                (fun i => decide (i ∉ path))).length) 0 ∈
              (List.range n).filter (fun i => decide (i ∉ path)) := by
            rw [List.getD_eq_getElem _ _ hidx]
            exact List.getElem_mem hidx
          have hmem2 := List.mem_filter.mp hmem
          have hnextlt := List.mem_range.mp hmem2.1
          have hnextnot : ((List.range n).filter
              (fun i => decide (i ∉ path))).getD
              (tape t % ((List.range n).filter
                (fun i => decide (i ∉ path))).length) 0 ∉ path := by
            simpa using hmem2.2
          have hnd2 : (path ++ [((List.range n).filter
              (fun i => decide (i ∉ path))).getD
              (tape t % ((List.range n).filter
                (fun i => decide (i ∉ path))).length) 0]).Nodup := by
            rw [List.nodup_append]
            refine ⟨hnd, List.nodup_singleton _, ?_⟩
            intro a ha hb2
            rw [List.mem_singleton] at hb2
            subst hb2
            exact hnextnot ha
          have hb2 : ∀ x ∈ path ++ [((List.range n).filter
              (fun i => decide (i ∉ path))).getD
              (tape t % ((List.range n).filter
                (fun i => decide (i ∉ path))).length) 0], x < n := by
            intro x hx
            rcases List.mem_append.mp hx with hx1 | hx2
            · exact hb x hx1
            · rw [List.mem_singleton] at hx2
              subst hx2
              exact hnextlt
          have hres := ih (t + 1) _ _ hnd2 hb2 p hp
          refine ⟨hres.1, hres.2.1, fun hle => ?_⟩
          apply hres.2.2
          rw [List.length_append, List.length_singleton]
          omega
    · rw [if_neg hlt] at hp
      simp only [Except.ok.injEq] at hp
      subst hp
      refine ⟨hnd, hb, fun _ => ?_⟩
      have := nodup_bounded_length_le hnd hb
      omega

theorem build_tour_loop_ok (w : Nat → Nat → Except Unit ℚ) (n : Nat)
    (tape : Nat → Nat) (hw : ∀ c x, ∃ qv, w c x = .ok qv) :
    ∀ (fuel t current : Nat) (path : List Nat),
      ∃ p, build_tour_loop w n tape fuel t current path = .ok p := by
  intro fuel
  induction fuel with
  | zero =>
    intro t current path
    exact ⟨path, by simp [build_tour_loop]⟩
  | succ fuel ih =>
    intro t current path
    by_cases hlt : path.length < n
    · by_cases hemp :
          ((List.range n).filter (fun i => decide (i ∉ path))).isEmpty = true
      · exact ⟨path, by simp only [build_tour_loop, if_pos hlt, if_pos hemp]⟩
      · rcases collectE_ok (((List.range n).filter
            (fun i => decide (i ∉ path))).map (fun node => w current node))
            (by
              intro x hx
              rcases List.mem_map.mp hx with ⟨node, _, rfl⟩
              exact hw current node) with ⟨probs, hcol⟩
        obtain ⟨p, hp⟩ := ih (t + 1)
          (((List.range n).filter (fun i => decide (i ∉ path))).getD
            (tape t % ((List.range n).filter
              (fun i => decide (i ∉ path))).length) 0)
          (path ++ [((List.range n).filter (fun i => decide (i ∉ path))).getD
            (tape t % ((List.range n).filter
              (fun i => decide (i ∉ path))).length) 0])
        refine ⟨p, ?_⟩
        simp only [build_tour_loop, if_pos hlt, if_neg hemp, hcol, ite_self]
        exact hp
    · exact ⟨path, by simp only [build_tour_loop, if_neg hlt]⟩

theorem calc_prob_ok {ph d : Nat × Nat → Option ℚ}
    (hd : ∀ e, d e ≠ some 0) (c x alpha beta : Nat) :
    ∃ qv, calculate_transition_prob ph d c x alpha beta = .ok qv := by
  by_cases hcx : c = x
  · exact ⟨0, by simp [calculate_transition_prob, hcx]⟩
  · cases hp : ph (c, x) with
    | none => exact ⟨0, by simp [calculate_transition_prob, hcx, hp]⟩
    | some tau =>
      cases hdist : d (c, x) with
      | none => exact ⟨0, by simp [calculate_transition_prob, hcx, hp, hdist]⟩
      | some dist =>
        have hz : dist ≠ 0 := by
          intro h0
          exact hd (c, x) (by rw [hdist, h0])
        exact ⟨tau ^ alpha * (1 / dist) ^ beta,
          by simp [calculate_transition_prob, hcx, hp, hdist, hz]⟩

/-- Claim C1: for every configuration with at least two nodes, any pheromone
table and any distance table without zero entries, every tour returned by
construct_path is a permutation of 0..N-1 (no repeats, no omissions, length
exactly N), and construction always completes with such a permutation
without raising; in particular this covers the degenerate configurations in
which every transition weight is zero at every step (for instance an empty
pheromone table), where the builder falls back to the tape-driven uniform
choice among unvisited candidates. -/
theorem construct_path_valid (pheromone distances : Nat × Nat → Option ℚ)
    (n : Nat) (tape : Nat → Nat) (hn : 2 ≤ n)
    (hd : ∀ e, distances e ≠ some 0) :
    (∀ p, construct_path pheromone distances n tape = .ok p →
      p.Perm (List.range n)) ∧
    (∃ p, construct_path pheromone distances n tape = .ok p ∧
      p.Perm (List.range n)) := by
  have hn0 : n ≠ 0 := by omega
  have hstart : tape 0 % n < n := Nat.mod_lt _ (Nat.pos_of_ne_zero hn0)
  have hmain : ∀ p, construct_path pheromone distances n tape = .ok p →
      p.Perm (List.range n) := by
    intro p hp
    simp only [construct_path, build_tour, if_neg hn0] at hp
    have hres := build_tour_loop_spec _ n tape n 1 (tape 0 % n) [tape 0 % n]
      (List.nodup_singleton _)
      (by
        intro x hx
        rw [List.mem_singleton] at hx
        subst hx
        exact hstart) p hp
    exact perm_range_of hres.1 hres.2.1
      (hres.2.2 (by simp only [List.length_singleton]; omega))
  refine ⟨hmain, ?_⟩
  obtain ⟨p, hp⟩ := build_tour_loop_ok _ n tape
    (fun c x => calc_prob_ok hd c x 1 2) n 1 (tape 0 % n) [tape 0 % n]
  refine ⟨p, ?_, ?_⟩
  · simp only [construct_path, build_tour, if_neg hn0]
    exact hp
  · exact hmain p (by simp only [construct_path, build_tour, if_neg hn0]; exact hp)

unseal Rat.add Rat.sub Rat.mul Rat.inv in
/-- Witness for C1: two nodes, an empty pheromone table (so every transition
weight is 0 and the uniform fallback is taken at every step), unit
distances: construction completes with the permutation [0, 1]. -/
theorem construct_path_valid_witness :
    construct_path (fun _ => none) (fun _ => some 1) 2 wTape1 = .ok [0, 1] ∧
    ([0, 1] : List Nat).Perm (List.range 2) :=
  ⟨by decide,
   (construct_path_valid (fun _ => none) (fun _ => some 1) 2 wTape1
      (by norm_num)
      (fun e h => one_ne_zero (Option.some.inj h))).1 [0, 1] (by decide)⟩

/-- Claim C10: for every n of at least 1 and tables without zero distances,
one tour construction terminates with a path of length exactly n: each pass
of the while loop moves one unvisited node into the path, so the loop body
runs exactly n - 1 times; for n = 1 the loop body never runs and the result
is the single start node 0 = tape 0 % 1. -/
theorem construct_path_terminates (pheromone distances : Nat × Nat → Option ℚ)
    (n : Nat) (tape : Nat → Nat) (hn : 1 ≤ n)
    (hd : ∀ e, distances e ≠ some 0) :
    (∀ p, construct_path pheromone distances n tape = .ok p →
      p.length = n) ∧
    (∃ p, construct_path pheromone distances n tape = .ok p) ∧
    construct_path pheromone distances 1 tape = .ok [0] := by
  have hn0 : n ≠ 0 := by omega
  have hstart : tape 0 % n < n := Nat.mod_lt _ (Nat.pos_of_ne_zero hn0)
  refine ⟨?_, ?_, ?_⟩
  · intro p hp
    simp only [construct_path, build_tour, if_neg hn0] at hp
    have hres := build_tour_loop_spec _ n tape n 1 (tape 0 % n) [tape 0 % n]
      (List.nodup_singleton _)
      (by
        intro x hx
        rw [List.mem_singleton] at hx
        subst hx
        exact hstart) p hp
    exact hres.2.2 (by simp only [List.length_singleton]; omega)
  · obtain ⟨p, hp⟩ := build_tour_loop_ok _ n tape
      (fun c x => calc_prob_ok hd c x 1 2) n 1 (tape 0 % n) [tape 0 % n]
    exact ⟨p, by simp only [construct_path, build_tour, if_neg hn0]; exact hp⟩
  · simp [construct_path, build_tour, build_tour_loop, Nat.mod_one]

unseal Rat.add Rat.sub Rat.mul Rat.inv in
/-- Witness for C10: three nodes with complete unit distances and trail 0.1
everywhere; the construction returns the full-length path [0, 1, 2]. -/
theorem construct_path_terminates_witness :
    construct_path wPher wDist3 3 wTape1 = .ok [0, 1, 2] ∧
    ([0, 1, 2] : List Nat).length = 3 :=
  ⟨by decide,
   (construct_path_terminates wPher wDist3 3 wTape1 (by norm_num)
      (by
        intro e h
        unfold wDist3 at h
        split at h
        · exact one_ne_zero (Option.some.inj h)
        · cases h)).1 [0, 1, 2] (by decide)⟩

theorem fold_min_spec {α : Type} (f : α → WithTop ℚ) :
    ∀ (xs : List α) (acc : α),
      (∀ y ∈ acc :: xs,
        f (xs.foldl (fun a y => if f y < f a then y else a) acc) ≤ f y) ∧
      ∃ l1 l2, acc :: xs =
          l1 ++ (xs.foldl (fun a y => if f y < f a then y else a) acc) :: l2 ∧
        ∀ y ∈ l1, f (xs.foldl (fun a y => if f y < f a then y else a) acc) < f y := by
  intro xs
  induction xs with
  | nil =>
    intro acc
    refine ⟨?_, [], [], rfl, by simp⟩
    intro y hy
    rw [List.mem_singleton] at hy
    subst hy
    simp
  | cons x xs ih =>
    intro acc
    rw [List.foldl_cons]
    by_cases hx : f x < f acc
    · rw [if_pos hx]
      rcases ih x with ⟨hmin, l1, l2, hdecomp, hstrict⟩
      refine ⟨?_, acc :: l1, l2, ?_, ?_⟩
      · intro y hy
        rcases List.mem_cons.mp hy with rfl | hy2
        · exact le_trans (hmin x (List.mem_cons_self x xs)) (le_of_lt hx)
        · exact hmin y hy2
      · rw [List.cons_append, ← hdecomp]
      · intro y hy
        rcases List.mem_cons.mp hy with rfl | hy2
        · exact lt_of_le_of_lt (hmin x (List.mem_cons_self x xs)) hx
        · exact hstrict y hy2
    · rw [if_neg hx]
      have hax : f acc ≤ f x := le_of_not_lt hx
      rcases ih acc with ⟨hmin, l1, l2, hdecomp, hstrict⟩
      refine ⟨?_, ?_⟩
      · intro y hy
        rcases List.mem_cons.mp hy with rfl | hy2
        · exact hmin y (List.mem_cons_self y xs)
        · rcases List.mem_cons.mp hy2 with rfl | hy3
          · exact le_trans (hmin acc (List.mem_cons_self acc xs)) hax
          · exact hmin y (List.mem_cons_of_mem acc hy3)
      · cases l1 with
        | nil =>
          rw [List.nil_append] at hdecomp
          have hr := (List.cons_eq_cons.mp hdecomp).1.symm
          exact ⟨[], x :: xs, by rw [List.nil_append, hr], by simp⟩
        | cons a l1t =>
          rw [List.cons_append] at hdecomp
          have h1 := (List.cons_eq_cons.mp hdecomp).1
          have h2 := (List.cons_eq_cons.mp hdecomp).2
          subst h1
          refine ⟨acc :: x :: l1t, l2, ?_, ?_⟩
          · rw [List.cons_append, List.cons_append, ← h2]
          · intro y hy
            rcases List.mem_cons.mp hy with rfl | hy2
            · exact hstrict y (List.mem_cons_self y l1t)
            · rcases List.mem_cons.mp hy2 with rfl | hy3
              · exact lt_of_lt_of_le
                  (hstrict acc (List.mem_cons_self acc l1t)) hax
              · exact hstrict y (List.mem_cons_of_mem acc hy3)

theorem python_min_spec {α : Type} (f : α → WithTop ℚ) (l : List α) (b : α)
    (h : python_min f l = some b) :
    (∀ y ∈ l, f b ≤ f y) ∧
    ∃ l1 l2, l = l1 ++ b :: l2 ∧ ∀ y ∈ l1, f b < f y := by
  cases l with
  | nil => cases h
  | cons x xs =>
    simp only [python_min, Option.some.injEq] at h
    subst h
    rcases fold_min_spec f xs x with ⟨hmin, l1, l2, hdecomp, hstrict⟩
    exact ⟨hmin, l1, l2, hdecomp, hstrict⟩

theorem aco_iteration_best_le (d : Nat × Nat → Option ℚ)
    (n ants alpha beta : Nat) (ev q : ℚ) (tape : Nat → Nat → Nat)
    (s s2 : AcoState)
    (h : aco_iteration d n ants alpha beta ev q tape s = .ok s2) :
    s2.best_len ≤ s.best_len ∧
    (s2.best_len ≠ s.best_len → s2.best_len < s.best_len) := by
  unfold aco_iteration at h
  split at h
  · exact absurd h (by simp)
  · split at h
    · exact absurd h (by simp)
    · next cbp hcbp =>
      simp only [Except.ok.injEq] at h
      subst h
      by_cases hlt : path_length cbp d < s.best_len
      · constructor
        · simp only [if_pos hlt]
          exact le_of_lt hlt
        · intro _
          simp only [if_pos hlt]
          exact hlt
      · constructor
        · simp only [if_neg hlt]
          exact le_rfl
        · intro hne
          simp only [if_neg hlt] at hne
          exact absurd rfl hne

/-- Claim C2: best-length-overall starts at +infinity and is monotonically
non-increasing across iterations: whenever iterations k and k + 1 both
complete, the value after k + 1 is at most the value after k, and it
changes only by strictly decreasing (it is replaced exactly when the
iteration-best length is strictly smaller). -/
theorem aco_best_monotone (d : Nat × Nat → Option ℚ) (n ants alpha beta : Nat)
    (ev q : ℚ) (tape : Nat → Nat → Nat → Nat) (k : Nat) (b b2 : WithTop ℚ)
    (hk : aco_best_after d n ants alpha beta ev q tape k = .ok b)
    (hk1 : aco_best_after d n ants alpha beta ev q tape (k + 1) = .ok b2) :
    b2 ≤ b ∧ (b2 ≠ b → b2 < b) ∧
    aco_best_after d n ants alpha beta ev q tape 0 = .ok ⊤ := by
  unfold aco_best_after at hk hk1
  cases hrun : aco_run d n ants alpha beta ev q tape k with
  | error e =>
    rw [hrun] at hk
    simp [Except.map] at hk
  | ok s =>
    rw [hrun] at hk
    simp only [Except.map, Except.ok.injEq] at hk
    subst hk
    unfold aco_run at hk1
    simp only [hrun] at hk1
    cases hit : aco_iteration d n ants alpha beta ev q (tape k) s with
    | error e =>
      rw [hit] at hk1
      simp [Except.map] at hk1
    | ok s2 =>
      rw [hit] at hk1
      simp only [Except.map, Except.ok.injEq] at hk1
      subst hk1
      have hle := aco_iteration_best_le d n ants alpha beta ev q (tape k) s s2 hit
      exact ⟨hle.1, hle.2, rfl⟩

unseal Rat.add Rat.sub Rat.mul Rat.inv in
/-- Witness for C2: two nodes at distance 5, one ant; after one iteration
the best length drops from +infinity to the tour length 10. -/
theorem aco_best_monotone_witness :
    ((10 : ℚ) : WithTop ℚ) ≤ (⊤ : WithTop ℚ) ∧
    (((10 : ℚ) : WithTop ℚ) ≠ ⊤ → ((10 : ℚ) : WithTop ℚ) < ⊤) ∧
    aco_best_after wDist 2 1 1 2 (1 / 10) 100 wTape3 0 = .ok ⊤ :=
  aco_best_monotone wDist 2 1 1 2 (1 / 10) 100 wTape3 0 ⊤
    ((10 : ℚ) : WithTop ℚ) rfl (by decide)

/-- Claim C3 counterexample: calling the optimizer with iterations = 0 does
not fail with a configuration error: the call returns
.ok (none, +infinity) normally (and indeed performs no tour construction),
so the claimed fail-fast ConfigurationError does not exist in the code. -/
theorem aco_iterations_zero_no_error :
    ant_colony_optimization_simple (fun x => x) wPoints 0 20 1 2 (1 / 10) 100
      wTape3 = .ok (none, ⊤) := rfl

/-- Claim C3 amended: the optimizer performs no configuration validation at
all.  With iterations = 0 it runs zero iterations, constructs no tour, and
returns (None, float("inf")) without raising, whatever the remaining
configuration is; other invalid configurations are either accepted silently
(negative alpha or beta, rho outside [0,1), q less or equal 0) or raise only
from inside the first iteration (ants = 0 raises from min() on the empty
tour list, N = 0 raises from random.randint), never as a fail-fast
configuration error before the iterations start. -/
theorem aco_no_fail_fast (sqrtFn : ℚ → ℚ) (points : List (ℚ × ℚ × ℚ))
    (ants alpha beta : Nat) (ev q : ℚ) (tape : Nat → Nat → Nat → Nat) :
    ant_colony_optimization_simple sqrtFn points 0 ants alpha beta ev q tape =
      .ok (none, ⊤) ∧
    ant_colony_optimization_simple sqrtFn points 1 0 alpha beta ev q tape =
      .error () := by
  exact ⟨rfl, rfl⟩

/-- Claim C6: whenever one iteration of the optimizer completes, the tour it
reinforces (after the evaporation sweep) is exactly the iteration-best tour:
the first tour of minimal length among the tours constructed in this
iteration (ties broken by construction order).  The resulting pheromone map
does not depend on the global-best state carried across iterations: any two
states with the same pheromone map produce the same updated pheromone map,
so the global-best tour is never reinforced. -/
theorem aco_reinforces_iteration_best (d : Nat × Nat → Option ℚ)
    (n ants alpha beta : Nat) (ev q : ℚ) (tape : Nat → Nat → Nat)
    (s : AcoState) (paths : List (List Nat)) (best : List Nat)
    (hpaths : collectE ((List.range ants).map (fun a =>
      build_tour (fun c x =>
        transition_weight_simple s.pheromone d alpha beta c x) n (tape a))) =
      .ok paths)
    (hmin : python_min (fun p => path_length p d) paths = some best) :
    (∀ p ∈ paths, path_length best d ≤ path_length p d) ∧
    (∃ l1 l2, paths = l1 ++ best :: l2 ∧
      ∀ p ∈ l1, path_length best d < path_length p d) ∧
    Except.map AcoState.pheromone
        (aco_iteration d n ants alpha beta ev q tape s) =
      .ok (if 0 < path_length best d
        then reinforceAmt (evaporate s.pheromone ev) best
          (top_div q (path_length best d))
        else evaporate s.pheromone ev) ∧
    (∀ s2 : AcoState, s2.pheromone = s.pheromone →
      Except.map AcoState.pheromone
          (aco_iteration d n ants alpha beta ev q tape s2) =
        Except.map AcoState.pheromone
          (aco_iteration d n ants alpha beta ev q tape s)) := by
  have hspec := python_min_spec (fun p => path_length p d) paths best hmin
  refine ⟨hspec.1, hspec.2, ?_, ?_⟩
  · simp only [aco_iteration, hpaths, hmin, Except.map]
  · intro s2 h2
    simp only [aco_iteration, h2, hpaths, hmin, Except.map]

unseal Rat.add Rat.sub Rat.mul Rat.inv in
/-- Witness for C6: the two-node fixture with one ant; the single
constructed tour [0, 1] is the iteration best and is the tour reinforced
after evaporation. -/
theorem aco_reinforces_iteration_best_witness :
    Except.map AcoState.pheromone
        (aco_iteration wDist 2 1 1 2 (1 / 10) 100 wTape2 wState) =
      .ok (if 0 < path_length [0, 1] wDist
        then reinforceAmt (evaporate wState.pheromone (1 / 10)) [0, 1]
          (top_div 100 (path_length [0, 1] wDist))
        else evaporate wState.pheromone (1 / 10)) :=
  (aco_reinforces_iteration_best wDist 2 1 1 2 (1 / 10) 100 wTape2 wState
    [[0, 1]] [0, 1] (by decide) (by decide)).2.2.1

end AntColony
